import Mathlib

/-!
Shallow embedding of the DTPatternRecognition Event/Particle construction
engine and its matching algorithms (dtpr/base/particle.py, dtpr/base/event.py,
dtpr/base/event_list.py, dtpr/utils/genmuon_functions.py, dtpr/utils/functions.py,
dtpr/particles/segment.py, dtpr/particles/ph2tp.py), together with theorems
settling the frozen claims about them.
-/

namespace DTPR

/-! ### Python value model

Particle attribute values in this code base are scalars (numbers, strings)
or lists of scalars.  Scalars are hashable in Python; lists are not. -/

inductive PyScalar where
  | int (n : Int)
  | str (s : String)
deriving DecidableEq

inductive PyVal where
  | scalar (v : PyScalar)
  | list (l : List PyScalar)
deriving DecidableEq

/-- Python hashability: scalars are hashable, lists are not
(`hash([...])` raises `TypeError`). -/
def PyVal.hashable : PyVal → Bool
  | .scalar _ => true
  | .list _ => false

/-- A model of Python's hash on strings (any fixed function works: the
embedding only relies on hash being a function of the value). -/
def strHash (s : String) : Int :=
  s.toList.foldl (fun a c => a * 31 + (c.toNat : Int)) 7

def PyScalar.pyHash : PyScalar → Int
  | .int n => n
  | .str s => strHash s

/-- Hash of a hashable value; the list case is never consulted because
`PyVal.hashable` guards it. -/
def PyVal.pyHash : PyVal → Int
  | .scalar v => v.pyHash
  | .list _ => 0

/-! ### Python `__dict__` model: ordered association list of attributes -/

abbrev DictV := List (String × PyVal)

/-- Attribute lookup in a `__dict__` (first entry wins; dictionaries built by
the code have pairwise-distinct keys). -/
def lookupKV {α : Type} : List (String × α) → String → Option α
  | [], _ => none
  | kv :: t, k => if kv.1 = k then some kv.2 else lookupKV t k

/-- Python `setattr`/dict update: replace the value at an existing key in
place, otherwise append the new entry. -/
def setKV {α : Type} : List (String × α) → String → α → List (String × α)
  | [], k, v => [(k, v)]
  | kv :: t, k, v => if kv.1 = k then (k, v) :: t else kv :: setKV t k v

abbrev keysNodup {α : Type} (d : List (String × α)) : Prop :=
  (d.map Prod.fst).Nodup

/-- Python `dict` equality for attribute dictionaries: mutual inclusion of
key/value pairs (order-insensitive, as `dict.__eq__` is). -/
def dictEqB (a b : DictV) : Bool :=
  a.all (fun kv => lookupKV b kv.1 == some kv.2) &&
    b.all (fun kv => lookupKV a kv.1 == some kv.2)

/-! ### Particle (dtpr/base/particle.py)

A `Particle` is a dynamic attribute bag: its whole state is its `__dict__`,
in which `index` and `name` are ordinary entries.  `__eq__` and `__hash__`
filter those two identity keys out. -/

structure Particle where
  odict : DictV
deriving DecidableEq

/-- The non-identity part of a particle `__dict__`: every entry whose key is
neither `index` nor `name` (`Particle.__eq__` / `Particle.__hash__`). -/
def nonId (d : DictV) : DictV :=
  d.filter (fun kv => !(kv.1 == "index" || kv.1 == "name"))

/-- Embeds `Particle.__eq__`: Python dict comparison of the two non-identity
attribute dictionaries. -/
def particleEq (p q : Particle) : Bool :=
  dictEqB (nonId p.odict) (nonId q.odict)

/-- Hash of a `(key, value)` attribute pair (model of Python's tuple hash). -/
def pairHash (kv : String × PyVal) : Int :=
  strHash kv.1 * 1000003 + kv.2.pyHash

/-- Embeds `hash(frozenset(pairs))`: building the frozenset hashes every element, so
any unhashable (list-valued) pair raises `TypeError` (modelled as `none`);
otherwise the hash is a function of the *set* of pairs (duplicates collapsed,
order irrelevant), modelled as a sum over the finite set. -/
def frozensetHash (d : DictV) : Option Int :=
  if d.all (fun kv => kv.2.hashable) then
    some (∑ kv ∈ d.toFinset, pairHash kv)
  else
    none

/-- Embeds `Particle.__hash__`: hash of the frozenset of non-identity
`(key, value)` pairs; `none` models the `TypeError` raised when some
attribute value is unhashable. -/
def particleHash (p : Particle) : Option Int :=
  frozensetHash (nonId p.odict)

/-- Embeds `setattr(particle, k, v)`. -/
def particleSetAttr (p : Particle) (k : String) (v : PyVal) : Particle :=
  { odict := setKV p.odict k v }

/-! ### Association list lemmas -/

theorem lookupKV_eq_some_of_mem {α : Type} {d : List (String × α)} {k : String} {v : α}
    (hnd : keysNodup d) (hmem : (k, v) ∈ d) : lookupKV d k = some v := by
  induction d with
  | nil => cases hmem
  | cons kv t ih =>
    rcases List.mem_cons.mp hmem with h | h
    · subst h; simp [lookupKV]
    · have hk : kv.1 ≠ k := by
        intro hk
        have : kv.1 ∈ t.map Prod.fst := by
          subst hk
          exact List.mem_map.mpr ⟨(kv.1, v), h, rfl⟩
        exact (List.nodup_cons.mp hnd).1 this
      have hnd' : keysNodup t := (List.nodup_cons.mp hnd).2
      simp [lookupKV, hk, ih hnd' h]

theorem mem_of_lookupKV_eq_some {α : Type} {d : List (String × α)} {k : String} {v : α}
    (h : lookupKV d k = some v) : (k, v) ∈ d := by
  induction d with
  | nil => simp [lookupKV] at h
  | cons kv t ih =>
    by_cases hk : kv.1 = k
    · simp [lookupKV, hk] at h
      subst h; subst hk
      exact List.mem_cons_self _ _
    · simp [lookupKV, hk] at h
      exact List.mem_cons_of_mem _ (ih h)

theorem mem_iff_lookupKV {α : Type} {d : List (String × α)} {k : String} {v : α}
    (hnd : keysNodup d) : (k, v) ∈ d ↔ lookupKV d k = some v :=
  ⟨lookupKV_eq_some_of_mem hnd, mem_of_lookupKV_eq_some⟩

theorem keysNodup_nonId {d : DictV} (h : keysNodup d) : keysNodup (nonId d) := by
  unfold keysNodup at *
  exact (List.Sublist.map Prod.fst (List.filter_sublist d)).nodup h

theorem lookupKV_nonId {d : DictV} {k : String} (hi : k ≠ "index") (hn : k ≠ "name") :
    lookupKV (nonId d) k = lookupKV d k := by
  induction d with
  | nil => rfl
  | cons kv t ih =>
    by_cases hf : (!(kv.1 == "index" || kv.1 == "name")) = true
    · have h1 : nonId (kv :: t) = kv :: nonId t := by
        simp only [nonId, List.filter_cons, hf]
        simp
      by_cases hk : kv.1 = k
      · rw [h1]; simp [lookupKV, hk]
      · rw [h1]; simp only [lookupKV, if_neg hk]; exact ih
    · have h1 : nonId (kv :: t) = nonId t := by
        simp only [nonId, List.filter_cons]
        rw [if_neg (by simpa using hf)]
      have hk : kv.1 ≠ k := by
        intro hk
        apply hf
        subst hk
        simp only [Bool.not_eq_true', Bool.or_eq_false_iff] at *
        simp [hi, hn]
      rw [h1, ih]
      simp [lookupKV, hk]

theorem mem_nonId {d : DictV} {kv : String × PyVal} :
    kv ∈ nonId d ↔ kv ∈ d ∧ kv.1 ≠ "index" ∧ kv.1 ≠ "name" := by
  simp [nonId, List.mem_filter]

theorem mem_setKV_self {α : Type} (d : List (String × α)) (k : String) (v : α) :
    (k, v) ∈ setKV d k v := by
  induction d with
  | nil => simp [setKV]
  | cons kv t ih =>
    by_cases hk : kv.1 = k
    · simp [setKV, hk]
    · simp [setKV, hk]
      right; exact ih

theorem nonId_toFinset_eq {p q : Particle}
    (hp : keysNodup p.odict) (hq : keysNodup q.odict)
    (hagree : ∀ k, k ≠ "index" → k ≠ "name" → lookupKV p.odict k = lookupKV q.odict k) :
    (nonId p.odict).toFinset = (nonId q.odict).toFinset := by
  ext kv
  obtain ⟨k, v⟩ := kv
  simp only [List.mem_toFinset, mem_nonId]
  constructor
  · rintro ⟨hmem, h1, h2⟩
    refine ⟨?_, h1, h2⟩
    have := lookupKV_eq_some_of_mem hp hmem
    rw [hagree k h1 h2] at this
    exact mem_of_lookupKV_eq_some this
  · rintro ⟨hmem, h1, h2⟩
    refine ⟨?_, h1, h2⟩
    have := lookupKV_eq_some_of_mem hq hmem
    rw [← hagree k h1 h2] at this
    exact mem_of_lookupKV_eq_some this

theorem particleEq_true_of_agree {p q : Particle}
    (hp : keysNodup p.odict) (hq : keysNodup q.odict)
    (hagree : ∀ k, k ≠ "index" → k ≠ "name" → lookupKV p.odict k = lookupKV q.odict k) :
    particleEq p q = true := by
  unfold particleEq dictEqB
  rw [Bool.and_eq_true, List.all_eq_true, List.all_eq_true]
  constructor
  · intro kv hkv
    obtain ⟨hmem, h1, h2⟩ := mem_nonId.mp hkv
    have hl : lookupKV q.odict kv.1 = some kv.2 := by
      rw [← hagree kv.1 h1 h2]
      exact lookupKV_eq_some_of_mem hp hmem
    rw [lookupKV_nonId h1 h2, hl]
    exact beq_self_eq_true _
  · intro kv hkv
    obtain ⟨hmem, h1, h2⟩ := mem_nonId.mp hkv
    have hl : lookupKV p.odict kv.1 = some kv.2 := by
      rw [hagree kv.1 h1 h2]
      exact lookupKV_eq_some_of_mem hq hmem
    rw [lookupKV_nonId h1 h2, hl]
    exact beq_self_eq_true _

theorem particleHash_eq_of_agree {p q : Particle}
    (hp : keysNodup p.odict) (hq : keysNodup q.odict)
    (hagree : ∀ k, k ≠ "index" → k ≠ "name" → lookupKV p.odict k = lookupKV q.odict k) :
    particleHash p = particleHash q := by
  have hfin := nonId_toFinset_eq hp hq hagree
  have hmemiff : ∀ kv, kv ∈ nonId p.odict ↔ kv ∈ nonId q.odict := by
    intro kv
    rw [← List.mem_toFinset, ← List.mem_toFinset, hfin]
  have hall : (nonId p.odict).all (fun kv => kv.2.hashable)
      = (nonId q.odict).all (fun kv => kv.2.hashable) := by
    by_cases h : (nonId p.odict).all (fun kv => kv.2.hashable) = true
    · rw [h]
      symm
      rw [List.all_eq_true] at h ⊢
      intro kv hkv
      exact h kv ((hmemiff kv).mpr hkv)
    · rw [Bool.not_eq_true] at h
      rw [h]
      symm
      rw [Bool.eq_false_iff]
      intro hc
      rw [Bool.eq_false_iff] at h
      apply h
      rw [List.all_eq_true] at hc ⊢
      intro kv hkv
      exact hc kv ((hmemiff kv).mp hkv)
  unfold particleHash frozensetHash
  rw [hall, hfin]

theorem particleEq_false_of_setAttr {p q : Particle} {k : String} {v : PyVal}
    (h1 : k ≠ "index") (h2 : k ≠ "name") (hne : lookupKV q.odict k ≠ some v) :
    particleEq (particleSetAttr p k v) q = false := by
  rw [Bool.eq_false_iff]
  intro hc
  unfold particleEq dictEqB at hc
  rw [Bool.and_eq_true, List.all_eq_true] at hc
  have hmem : (k, v) ∈ nonId (particleSetAttr p k v).odict := by
    rw [mem_nonId]
    exact ⟨mem_setKV_self _ _ _, h1, h2⟩
  have := hc.1 (k, v) hmem
  rw [beq_iff_eq, lookupKV_nonId h1 h2] at this
  exact hne this

/-- C1: equality and hash of `Particle` consider only non-identity attributes,
and changing one non-identity attribute to a value the other particle does not
hold breaks equality. -/
theorem particle_eq_hash_identity_excluded (p q : Particle)
    (hp : keysNodup p.odict) (hq : keysNodup q.odict)
    (hagree : ∀ k, k ≠ "index" → k ≠ "name" → lookupKV p.odict k = lookupKV q.odict k) :
    particleEq p q = true ∧ particleHash p = particleHash q ∧
      ∀ k v, k ≠ "index" → k ≠ "name" → lookupKV q.odict k ≠ some v →
        particleEq (particleSetAttr p k v) q = false :=
  ⟨particleEq_true_of_agree hp hq hagree,
   particleHash_eq_of_agree hp hq hagree,
   fun _ _ h1 h2 hne => particleEq_false_of_setAttr h1 h2 hne⟩

/-- Two particles with identical content but different `index`/`name`. -/
def pC1 : Particle :=
  ⟨[("index", .scalar (.int 0)), ("name", .scalar (.str "Seg")),
    ("pt", .scalar (.int 7)), ("tag", .scalar (.str "a"))]⟩

def qC1 : Particle :=
  ⟨[("index", .scalar (.int 3)), ("name", .scalar (.str "Other")),
    ("pt", .scalar (.int 7)), ("tag", .scalar (.str "a"))]⟩

/-- Witness for C1 at concrete particles differing only in `index`/`name`. -/
theorem particle_eq_hash_identity_excluded_witness :
    particleEq pC1 qC1 = true ∧ particleHash pC1 = particleHash qC1 ∧
      particleEq (particleSetAttr pC1 "pt" (.scalar (.int 8))) qC1 = false := by
  have h := particle_eq_hash_identity_excluded pC1 qC1 (by decide) (by decide)
    (by
      intro k h1 h2
      simp [pC1, qC1, lookupKV, Ne.symm h1, Ne.symm h2])
  exact ⟨h.1, h.2.1, h.2.2 "pt" (.scalar (.int 8)) (by decide) (by decide) (by decide)⟩

/-- C9: a particle carrying a list-valued (unhashable) non-identity attribute
has no hash (`hash` raises `TypeError`), although equality comparison still
succeeds. -/
theorem particle_hash_list_valued_typeerror (p : Particle) (hnd : keysNodup p.odict)
    (k : String) (l : List PyScalar) (h1 : k ≠ "index") (h2 : k ≠ "name")
    (hmem : (k, PyVal.list l) ∈ p.odict) :
    particleHash p = none ∧ particleEq p p = true := by
  constructor
  · unfold particleHash frozensetHash
    have hmem' : (k, PyVal.list l) ∈ nonId p.odict :=
      mem_nonId.mpr ⟨hmem, h1, h2⟩
    have : ¬ ((nonId p.odict).all (fun kv => kv.2.hashable) = true) := by
      intro hc
      rw [List.all_eq_true] at hc
      have := hc (k, PyVal.list l) hmem'
      simp [PyVal.hashable] at this
    rw [if_neg this]
  · exact particleEq_true_of_agree hnd hnd (fun _ _ _ => rfl)

def pC9 : Particle :=
  ⟨[("index", .scalar (.int 0)), ("name", .scalar (.str "Seg")),
    ("hits", .list [.int 1, .int 2])]⟩

/-- Witness for C9 at a concrete particle with a list-valued attribute. -/
theorem particle_hash_list_valued_typeerror_witness :
    particleHash pC9 = none ∧ particleEq pC9 pC9 = true :=
  particle_hash_list_valued_typeerror pC9 (by decide) "hits" [.int 1, .int 2]
    (by decide) (by decide) (by decide)

/-! ### Errors and warnings surfaced by the embedded code -/

inductive PyErr where
  | ambiguousAttrSpec (attr : String)
  | eventRequired (attr branch : String)
  | branchNotFound (branch : String)
  | invalidFilterKeys (validKeys : List String)
  | attributeError (attr : String)
  | importError (path : String)
  | indexError
  | exprSyntaxError (expr : String)
  | exprRaise (msg : String)
  | coerceError
  | unboundLocal
deriving DecidableEq

/-! ### Event (dtpr/base/event.py)

An `Event` instance holds its plain instance fields (`__dict__`: `index`,
`number`, `_particles` reference, scalar fields) and the `_particles`
mapping from particle-type name to particle list. -/

inductive PyObj where
  | val (v : PyVal)
  | particle (p : Particle)
  | listObj (l : List PyObj)

def PyObj.isParticle : PyObj → Bool
  | .particle _ => true
  | _ => false

def PyObj.asParticle : PyObj → Option Particle
  | .particle p => some p
  | _ => none

structure Event where
  fields : List (String × PyObj)
  particles : List (String × List Particle)

/-- Embeds `Event.__setattr__`: a `Particle` value becomes a one-element collection;
a list all of whose elements are particles (vacuously, the empty list) is
routed into `_particles`; everything else is stored as a plain field. -/
def evSetAttr (ev : Event) (name : String) (value : PyObj) : Event :=
  match value with
  | .particle p => { ev with particles := setKV ev.particles name [p] }
  | .listObj l =>
    if l.all PyObj.isParticle then
      { ev with particles := setKV ev.particles name (l.filterMap PyObj.asParticle) }
    else
      { ev with fields := setKV ev.fields name value }
  | v => { ev with fields := setKV ev.fields name v }

/-- Attribute read on an `Event`: normal lookup consults the instance
`__dict__` first; only on a miss is `Event.__getattr__` invoked, which serves
the particle collections and otherwise raises `AttributeError`. -/
def evGetAttr (ev : Event) (name : String) : Except PyErr PyObj :=
  match lookupKV ev.fields name with
  | some v => .ok v
  | none =>
    match lookupKV ev.particles name with
    | some l => .ok (.listObj (l.map .particle))
    | none => .error (.attributeError name)

/-- The union of the attribute keys of the particles of a collection
(`valid_keys` in `Event.filter_particles`). -/
def validKeys (ps : List Particle) : List String :=
  ps.flatMap (fun p => p.odict.map Prod.fst)

/-- One constraint check, matching the short-circuit evaluation of
`all(getattr(particle, key) == value for key, value in kwargs.items())`:
`getattr` on a particle lacking the key raises `AttributeError`, but only if
that constraint is actually evaluated. -/
def particleMatches (p : Particle) : List (String × PyVal) → Except PyErr Bool
  | [] => .ok true
  | (k, v) :: rest =>
    match lookupKV p.odict k with
    | none => .error (.attributeError k)
    | some pv => if pv = v then particleMatches p rest else .ok false

/-- The final list comprehension of `Event.filter_particles`. -/
def filterMatches (kwargs : List (String × PyVal)) :
    List Particle → Except PyErr (List Particle)
  | [] => .ok []
  | p :: t => do
    let b ← particleMatches p kwargs
    let r ← filterMatches kwargs t
    pure (if b then p :: r else r)

/-- Embeds `Event.filter_particles`.  The `Bool` in the result records whether the
unknown-particle-type warning was emitted. -/
def filter_particles (ev : Event) (particle_type : String)
    (kwargs : List (String × PyVal)) : Except PyErr (Bool × List Particle) :=
  match lookupKV ev.particles particle_type with
  | none => .ok (true, [])
  | some ps =>
    if ps = [] then .ok (false, [])
    else if kwargs.all (fun kv => (validKeys ps).contains kv.1) then do
      let r ← filterMatches kwargs ps
      pure (false, r)
    else
      .error (.invalidFilterKeys (validKeys ps))

theorem lookupKV_setKV_self {α : Type} (d : List (String × α)) (k : String) (v : α) :
    lookupKV (setKV d k v) k = some v := by
  induction d with
  | nil => simp [setKV, lookupKV]
  | cons kv t ih =>
    by_cases hk : kv.1 = k
    · simp [setKV, hk, lookupKV]
    · simp [setKV, hk, lookupKV, ih]

theorem particleMatches_total {p : Particle} {kwargs : List (String × PyVal)}
    (h : ∀ kv ∈ kwargs, (lookupKV p.odict kv.1).isSome) :
    particleMatches p kwargs
      = .ok (kwargs.all (fun kv => lookupKV p.odict kv.1 == some kv.2)) := by
  induction kwargs with
  | nil => rfl
  | cons kv rest ih =>
    obtain ⟨pv, hpv⟩ := Option.isSome_iff_exists.mp (h kv (List.mem_cons_self _ _))
    have hrest := ih (fun kv hkv => h kv (List.mem_cons_of_mem _ hkv))
    obtain ⟨k, v⟩ := kv
    by_cases hv : pv = v
    · subst hv
      simp [particleMatches, hpv, hrest]
    · simp [particleMatches, hpv, hv, Bool.beq_eq_decide_eq]

theorem filterMatches_total {kwargs : List (String × PyVal)} {ps : List Particle}
    (h : ∀ p ∈ ps, ∀ kv ∈ kwargs, (lookupKV p.odict kv.1).isSome) :
    filterMatches kwargs ps
      = .ok (ps.filter (fun p => kwargs.all (fun kv => lookupKV p.odict kv.1 == some kv.2))) := by
  induction ps with
  | nil => rfl
  | cons p t ih =>
    have hp := particleMatches_total (h p (List.mem_cons_self _ _))
    have ht := ih (fun q hq => h q (List.mem_cons_of_mem _ hq))
    by_cases hb : (kwargs.all (fun kv => lookupKV p.odict kv.1 == some kv.2)) = true
    · simp only [filterMatches, hp, ht, List.filter_cons, hb, bind, Except.bind, if_true]
      rfl
    · rw [Bool.not_eq_true] at hb
      simp only [filterMatches, hp, ht, List.filter_cons, hb, bind, Except.bind]
      rfl

theorem mem_validKeys_of_lookup {ps : List Particle} {p : Particle} {k : String}
    (hp : p ∈ ps) (h : (lookupKV p.odict k).isSome) : k ∈ validKeys ps := by
  obtain ⟨v, hv⟩ := Option.isSome_iff_exists.mp h
  have hmem := mem_of_lookupKV_eq_some hv
  unfold validKeys
  rw [List.mem_flatMap]
  exact ⟨p, hp, List.mem_map.mpr ⟨(k, v), hmem, rfl⟩⟩

/-- C3 (amended): `filter_particles` warns and returns `[]` on an unknown
type, silently returns `[]` on a known empty type, raises a `ValueError`
naming the valid keys when some constraint key is an attribute of no particle
of the type, and — when every particle of the type carries every constraint
key — returns exactly the particles whose named attributes equal the given
values. -/
theorem filter_particles_spec (ev : Event) (t : String) (kwargs : List (String × PyVal)) :
    (lookupKV ev.particles t = none → filter_particles ev t kwargs = .ok (true, [])) ∧
    (lookupKV ev.particles t = some [] → filter_particles ev t kwargs = .ok (false, [])) ∧
    (∀ ps, lookupKV ev.particles t = some ps → ps ≠ [] →
      (∃ kv ∈ kwargs, ¬ ((validKeys ps).contains kv.1 = true)) →
      filter_particles ev t kwargs = .error (.invalidFilterKeys (validKeys ps))) ∧
    (∀ ps, lookupKV ev.particles t = some ps → ps ≠ [] →
      (∀ p ∈ ps, ∀ kv ∈ kwargs, (lookupKV p.odict kv.1).isSome) →
      filter_particles ev t kwargs
        = .ok (false, ps.filter
            (fun p => kwargs.all (fun kv => lookupKV p.odict kv.1 == some kv.2)))) := by
  refine ⟨fun h => ?_, fun h => ?_, fun ps h hne hbad => ?_, fun ps h hne hall => ?_⟩
  · simp [filter_particles, h]
  · simp [filter_particles, h]
  · have hnall : ¬ (kwargs.all (fun kv => (validKeys ps).contains kv.1) = true) := by
      intro hc
      rw [List.all_eq_true] at hc
      obtain ⟨kv, hkv, hbadkv⟩ := hbad
      exact hbadkv (hc kv hkv)
    unfold filter_particles
    rw [h]
    dsimp only
    rw [if_neg hne, if_neg hnall]
  · have hallkeys : kwargs.all (fun kv => (validKeys ps).contains kv.1) = true := by
      rw [List.all_eq_true]
      intro kv hkv
      obtain ⟨p, hp⟩ : ∃ p, p ∈ ps := by
        cases ps with
        | nil => exact absurd rfl hne
        | cons a l => exact ⟨a, List.mem_cons_self _ _⟩
      have := mem_validKeys_of_lookup hp (hall p hp kv hkv)
      exact List.elem_eq_true_of_mem this
    unfold filter_particles
    rw [h]
    dsimp only
    rw [if_neg hne, if_pos hallkeys]
    rw [filterMatches_total hall]
    rfl

/-- Witness event for C3: one known type with two particles. -/
def pA3 : Particle :=
  ⟨[("index", .scalar (.int 0)), ("name", .scalar (.str "G")), ("b", .scalar (.int 0))]⟩

def pB3 : Particle :=
  ⟨[("index", .scalar (.int 1)), ("name", .scalar (.str "G")),
    ("a", .scalar (.int 1)), ("b", .scalar (.int 0))]⟩

def evC3 : Event := ⟨[], [("genmuons", [pA3, pB3]), ("tps", [])]⟩

/-- Witness for C3 exercising all four branches on `evC3`. -/
theorem filter_particles_spec_witness :
    filter_particles evC3 "digis" [] = .ok (true, []) ∧
    filter_particles evC3 "tps" [("wh", .scalar (.int 1))] = .ok (false, []) ∧
    filter_particles evC3 "genmuons" [("zz", .scalar (.int 1))]
      = .error (.invalidFilterKeys (validKeys [pA3, pB3])) ∧
    filter_particles evC3 "genmuons" [("b", .scalar (.int 0))] = .ok (false, [pA3, pB3]) := by
  refine ⟨(filter_particles_spec evC3 "digis" []).1 (by decide),
    (filter_particles_spec evC3 "tps" [("wh", .scalar (.int 1))]).2.1 (by decide),
    (filter_particles_spec evC3 "genmuons" [("zz", .scalar (.int 1))]).2.2.1 [pA3, pB3]
      (by decide) (by decide) ⟨("zz", .scalar (.int 1)), by decide, by decide⟩,
    ?_⟩
  have h := (filter_particles_spec evC3 "genmuons" [("b", .scalar (.int 0))]).2.2.2
    [pA3, pB3] (by decide) (by decide) (by decide)
  rw [h]
  rfl

/-- Counterexample for C3 as frozen: the constraint key `a` is an attribute of
a particle of the type (it is among the valid keys), yet `filter_particles`
neither raises the `ValueError` nor returns the matching particles — it
raises `AttributeError` while evaluating the constraint on `pA3`, which lacks
the key. -/
theorem filter_particles_hetero_counterexample :
    filter_particles evC3 "genmuons" [("a", .scalar (.int 1))]
        = .error (.attributeError "a") ∧
    "a" ∈ validKeys [pA3, pB3] ∧
    [pA3, pB3].filter
        (fun p => [(("a" : String), PyVal.scalar (.int 1))].all
          (fun kv => lookupKV p.odict kv.1 == some kv.2)) = [pB3] := by
  refine ⟨rfl, by decide, by decide⟩

/-- C10 (amended): assigning `[]` to an attribute name routes it into the
particle-collections map; afterwards `filter_particles` treats the type as
known (empty result, no warning) unconditionally, and the attribute read
returns `[]` via the collections lookup provided the name is not shadowed by
an existing plain instance field. -/
theorem event_empty_list_routes_to_particles (ev : Event) (name : String) :
    (lookupKV ev.fields name = none →
      evGetAttr (evSetAttr ev name (.listObj [])) name = .ok (.listObj [])) ∧
    lookupKV (evSetAttr ev name (.listObj [])).particles name = some [] ∧
    filter_particles (evSetAttr ev name (.listObj [])) name [] = .ok (false, []) := by
  have hset : evSetAttr ev name (.listObj [])
      = { ev with particles := setKV ev.particles name [] } := by
    simp [evSetAttr, List.filterMap]
  refine ⟨fun h => ?_, ?_, ?_⟩
  · rw [hset]
    simp [evGetAttr, h, lookupKV_setKV_self]
  · rw [hset]
    exact lookupKV_setKV_self _ _ _
  · rw [hset]
    simp [filter_particles, lookupKV_setKV_self]

def evC10 : Event := ⟨[("index", .val (.scalar (.int 1)))], []⟩

/-- Witness for C10 (amended) at a concrete event and fresh attribute name. -/
theorem event_empty_list_routes_to_particles_witness :
    evGetAttr (evSetAttr evC10 "showers" (.listObj [])) "showers" = .ok (.listObj []) ∧
    filter_particles (evSetAttr evC10 "showers" (.listObj [])) "showers" [] = .ok (false, []) :=
  ⟨(event_empty_list_routes_to_particles evC10 "showers").1 rfl,
   (event_empty_list_routes_to_particles evC10 "showers").2.2⟩

/-- Counterexample for C10 as frozen: assigning `[]` to the name `index`
routes it into the collections map, but the subsequent attribute read still
returns the plain instance field `index = 1`, not the empty collection. -/
theorem event_empty_list_shadowed_counterexample :
    lookupKV (evSetAttr evC10 "index" (.listObj [])).particles "index" = some [] ∧
    evGetAttr (evSetAttr evC10 "index" (.listObj [])) "index"
      = .ok (.val (.scalar (.int 1))) :=
  ⟨rfl, rfl⟩

/-! ### Attribute-spec resolution (`Particle._init_from_dict`)

A record (ROOT TTree entry) offers named columns that are scalar, vector
(one value per particle) or vector-of-vector (one inner sequence per
particle).  Expression evaluation (`eval`), dotted-path callable resolution
and type coercion are external interpreter services, passed in as
parameters. -/

inductive Column where
  | scalar (v : PyVal)
  | vector (l : List PyScalar)
  | vvector (l : List (List PyScalar))

abbrev Record := List (String × Column)

/-- Failure of the external expression evaluator: a `SyntaxError` from
`compile` (turned into a `ValueError` by the code) or an exception raised
while evaluating. -/
inductive ExprFail where
  | syntaxErr
  | raised (msg : String)

/-- One per-attribute spec dictionary (`branch` / `expr` / `src` /
`kwargs` / `type` entries). -/
structure AttrSpec where
  branch : Option String := none
  expr : Option String := none
  src : Option String := none
  kwargs : Option DictV := none
  ctype : Option String := none

/-- The list `[x for x in [branch, expr, src] if x is not None]`. -/
def providedSources (info : AttrSpec) : List String :=
  [info.branch, info.expr, info.src].filterMap id

/-- The `branch` arm of `_init_from_dict` (guarded by `if branch:`, so an
empty string is falsy and skips the arm).  Scalar columns are used directly,
vector columns are indexed at the particle index, vector-of-vector columns
yield the full inner sequence at the index. -/
def branchStep (index : Nat) (attr : String) (info : AttrSpec) (event : Option Record) :
    Except PyErr (Option PyVal) :=
  match info.branch with
  | none => .ok none
  | some b =>
    if b = "" then .ok none
    else
      match event with
      | none => .error (.eventRequired attr b)
      | some ev =>
        match lookupKV ev b with
        | none => .error (.branchNotFound b)
        | some (Column.scalar v) => .ok (some v)
        | some (Column.vector l) =>
          match l.get? index with
          | some x => .ok (some (PyVal.scalar x))
          | none => .error .indexError
        | some (Column.vvector l) =>
          match l.get? index with
          | some inner => .ok (some (PyVal.list inner))
          | none => .error .indexError

/-- The `elif src:` arm: dotted-path resolution of a callable, partially
applied with the fixed `kwargs`, invoked on the in-progress particle. -/
def srcStep (getCallable : String → Option (DictV → DictV → PyVal)) (info : AttrSpec)
    (selfDict : DictV) (vPrev : Option PyVal) : Except PyErr (Option PyVal) :=
  match info.src with
  | none => .ok vPrev
  | some s =>
    if s = "" then .ok vPrev
    else
      match getCallable s with
      | none => .error (.importError s)
      | some f => .ok (some (f (info.kwargs.getD []) selfDict))

/-- The `if expr: ... elif src: ...` block: a truthy `expr` is compiled and
evaluated against the attributes assigned so far, otherwise the `src` arm
runs; a falsy value in both leaves the branch value in place. -/
def exprStep (evalExpr : String → DictV → Except ExprFail PyVal)
    (getCallable : String → Option (DictV → DictV → PyVal)) (info : AttrSpec)
    (selfDict : DictV) (vPrev : Option PyVal) : Except PyErr (Option PyVal) :=
  match info.expr with
  | none => srcStep getCallable info selfDict vPrev
  | some e =>
    if e = "" then srcStep getCallable info selfDict vPrev
    else
      match evalExpr e selfDict with
      | .ok v => .ok (some v)
      | .error .syntaxErr => .error (.exprSyntaxError e)
      | .error (.raised m) => .error (.exprRaise m)

/-- The `if _type:` coercion: scalar coercion of a scalar value, element-wise
coercion over a list value. -/
def typeStep (coerceScalar : String → PyScalar → Option PyScalar) (info : AttrSpec)
    (v : Option PyVal) : Except PyErr (Option PyVal) :=
  match info.ctype with
  | none => .ok v
  | some t =>
    if t = "" then .ok v
    else
      match v with
      | none => .ok none
      | some (PyVal.scalar s) =>
        match coerceScalar t s with
        | some s' => .ok (some (PyVal.scalar s'))
        | none => .error .coerceError
      | some (PyVal.list l) =>
        match l.mapM (coerceScalar t) with
        | some l' => .ok (some (PyVal.list l'))
        | none => .error .coerceError

/-- Everything in `_init_from_dict` after the exactly-one validation: resolve
the single source, coerce, and `setattr` the result (an unset `value` at the
final `setattr` is Python's `UnboundLocalError`). -/
def initFromDictBody (evalExpr : String → DictV → Except ExprFail PyVal)
    (getCallable : String → Option (DictV → DictV → PyVal))
    (coerceScalar : String → PyScalar → Option PyScalar)
    (selfDict : DictV) (index : Nat) (attr : String) (info : AttrSpec)
    (event : Option Record) : Except PyErr DictV :=
  match branchStep index attr info event with
  | .error e => .error e
  | .ok v1 =>
    match exprStep evalExpr getCallable info selfDict v1 with
    | .error e => .error e
    | .ok v2 =>
      match typeStep coerceScalar info v2 with
      | .error e => .error e
      | .ok (some v) => .ok (setKV selfDict attr v)
      | .ok none => .error .unboundLocal

/-- Embeds `Particle._init_from_dict`: ensure exactly one of `branch`, `expr`,
`src` is provided, then build the attribute. -/
def init_from_dict (evalExpr : String → DictV → Except ExprFail PyVal)
    (getCallable : String → Option (DictV → DictV → PyVal))
    (coerceScalar : String → PyScalar → Option PyScalar)
    (selfDict : DictV) (index : Nat) (attr : String) (info : AttrSpec)
    (event : Option Record) : Except PyErr DictV :=
  if (providedSources info).length ≠ 1 then
    .error (.ambiguousAttrSpec attr)
  else
    initFromDictBody evalExpr getCallable coerceScalar selfDict index attr info event

theorem branchStep_ne_ambiguous (index : Nat) (attr : String) (info : AttrSpec)
    (event : Option Record) (a : String) :
    branchStep index attr info event ≠ .error (.ambiguousAttrSpec a) := by
  unfold branchStep
  repeat' split
  all_goals simp

theorem srcStep_ne_ambiguous (gc : String → Option (DictV → DictV → PyVal)) (info : AttrSpec)
    (selfDict : DictV) (vPrev : Option PyVal) (a : String) :
    srcStep gc info selfDict vPrev ≠ .error (.ambiguousAttrSpec a) := by
  unfold srcStep
  repeat' split
  all_goals simp

theorem exprStep_ne_ambiguous (ee : String → DictV → Except ExprFail PyVal)
    (gc : String → Option (DictV → DictV → PyVal)) (info : AttrSpec)
    (selfDict : DictV) (vPrev : Option PyVal) (a : String) :
    exprStep ee gc info selfDict vPrev ≠ .error (.ambiguousAttrSpec a) := by
  unfold exprStep
  split
  · exact srcStep_ne_ambiguous gc info selfDict vPrev a
  · split
    · exact srcStep_ne_ambiguous gc info selfDict vPrev a
    · split <;> simp

theorem typeStep_ne_ambiguous (cs : String → PyScalar → Option PyScalar) (info : AttrSpec)
    (v : Option PyVal) (a : String) :
    typeStep cs info v ≠ .error (.ambiguousAttrSpec a) := by
  unfold typeStep
  repeat' split
  all_goals simp

/-- C2 (amended): the exactly-one check on `{branch, expr, src}` fires, with
the configuration error, for every particle index and every record whenever
zero or two-or-more sources are provided (the outcome is record- and
index-independent); with exactly one source the configuration error is never
raised, and the build succeeds when the single source resolves (here: a
present scalar branch) — though it can still fail for other, per-record
reasons. -/
theorem init_from_dict_spec (evalExpr : String → DictV → Except ExprFail PyVal)
    (getCallable : String → Option (DictV → DictV → PyVal))
    (coerceScalar : String → PyScalar → Option PyScalar)
    (selfDict : DictV) (index : Nat) (attr : String) (info : AttrSpec)
    (event : Option Record) :
    ((providedSources info).length ≠ 1 →
      init_from_dict evalExpr getCallable coerceScalar selfDict index attr info event
        = .error (.ambiguousAttrSpec attr)) ∧
    ((providedSources info).length = 1 →
      init_from_dict evalExpr getCallable coerceScalar selfDict index attr info event
        ≠ .error (.ambiguousAttrSpec attr)) ∧
    (∀ b v ev, info.branch = some b → b ≠ "" → info.expr = none → info.src = none →
      info.ctype = none → event = some ev → lookupKV ev b = some (Column.scalar v) →
      init_from_dict evalExpr getCallable coerceScalar selfDict index attr info event
        = .ok (setKV selfDict attr v)) := by
  refine ⟨fun h => ?_, fun h => ?_, fun b v ev hb hbne he hs hc hev hcol => ?_⟩
  · unfold init_from_dict
    rw [if_pos h]
  · intro hcontra
    unfold init_from_dict at hcontra
    rw [if_neg (by simp [h])] at hcontra
    unfold initFromDictBody at hcontra
    cases hbr : branchStep index attr info event with
    | error e =>
      rw [hbr] at hcontra
      injection hcontra with h2
      subst h2
      exact branchStep_ne_ambiguous index attr info event attr hbr
    | ok v1 =>
      rw [hbr] at hcontra
      dsimp only at hcontra
      cases hex : exprStep evalExpr getCallable info selfDict v1 with
      | error e =>
        rw [hex] at hcontra
        injection hcontra with h2
        subst h2
        exact exprStep_ne_ambiguous evalExpr getCallable info selfDict v1 attr hex
      | ok v2 =>
        rw [hex] at hcontra
        dsimp only at hcontra
        cases hty : typeStep coerceScalar info v2 with
        | error e =>
          rw [hty] at hcontra
          injection hcontra with h2
          subst h2
          exact typeStep_ne_ambiguous coerceScalar info v2 attr hty
        | ok vo =>
          rw [hty] at hcontra
          cases vo <;> simp at hcontra
  · unfold init_from_dict
    rw [if_neg (by simp [providedSources, hb, he, hs])]
    unfold initFromDictBody
    have h1 : branchStep index attr info event = .ok (some v) := by
      unfold branchStep
      rw [hb, hev]
      simp only [if_neg hbne, hcol]
    have h2 : exprStep evalExpr getCallable info selfDict (some v) = .ok (some v) := by
      simp only [exprStep, srcStep, he, hs]
    have h3 : typeStep coerceScalar info (some v) = .ok (some v) := by
      simp only [typeStep, hc]
    rw [h1]
    dsimp only
    rw [h2]
    dsimp only
    rw [h3]

/-- Counterexample for C2 as frozen: a spec with exactly one of
`branch`/`expr`/`src` (a branch naming a column the record lacks) does not
build successfully — the build fails, just not with the exactly-one
configuration error. -/
theorem init_from_dict_missing_branch_counterexample :
    (providedSources { branch := some "b" }).length = 1 ∧
    init_from_dict (fun _ _ => .error .syntaxErr) (fun _ => none) (fun _ _ => none)
        [] 0 "x" { branch := some "b" } (some [])
      = .error (.branchNotFound "b") := by
  exact ⟨rfl, rfl⟩

/-- Witness for C2 (amended): a two-source spec is rejected with the
configuration error regardless of the record, and a well-formed single-branch
spec builds the attribute. -/
theorem init_from_dict_spec_witness :
    init_from_dict (fun _ _ => .error .syntaxErr) (fun _ => none) (fun _ _ => none)
        [] 5 "pt" { branch := some "b", expr := some "x + 1" } none
      = .error (.ambiguousAttrSpec "pt") ∧
    init_from_dict (fun _ _ => .error .syntaxErr) (fun _ => none) (fun _ _ => none)
        [] 0 "pt" { branch := some "gen_pt" }
        (some [("gen_pt", Column.scalar (.scalar (.int 42)))])
      = .ok [("pt", .scalar (.int 42))] := by
  constructor
  · exact (init_from_dict_spec (fun _ _ => .error .syntaxErr) (fun _ => none) (fun _ _ => none)
      [] 5 "pt" { branch := some "b", expr := some "x + 1" } none).1 (by decide)
  · exact (init_from_dict_spec (fun _ _ => .error .syntaxErr) (fun _ => none) (fun _ _ => none)
      [] 0 "pt" { branch := some "gen_pt" }
      (some [("gen_pt", Column.scalar (.scalar (.int 42)))])).2.2 "gen_pt"
      (.scalar (.int 42)) [("gen_pt", Column.scalar (.scalar (.int 42)))]
      rfl (by decide) rfl rfl rfl rfl rfl

/-! ### EventList (dtpr/base/event_list.py)

A lazy, indexable sequence over a chained record source.  Event construction
from a record (`Event(ev, iev, use_config=True)`) and the per-event pipeline
(`self._processor`, returning the processed event or `None` on selector
rejection) are external calls, carried as fields.  The pipeline is present
(fixed pipeline configuration). -/

structure EventList (R E : Type) where
  tree : List R
  build : R → Nat → E
  processor : E → Option E

/-- Embeds `EventList.__getitem__` for an integer index: `abs(index) >= length`
raises `IndexError`; a negative index has the length added; the loop over the
source finds the record at that position and returns the processed event (the
post-loop `raise` is kept although it is unreachable for indices that pass
the bound check). -/
def EventList.getItem {R E : Type} (el : EventList R E) (index : Int) :
    Except PyErr (Option E) :=
  if el.tree.length ≤ index.natAbs then
    .error .indexError
  else
    let i : Nat := if index < 0 then (index + el.tree.length).toNat else index.toNat
    match el.tree.get? i with
    | some r => .ok (el.processor (el.build r i))
    | none => .error .indexError

/-- Embeds `EventList.__iter__`: visit every record in source order, yielding the
processed event-or-`None` for each. -/
def EventList.iterate {R E : Type} (el : EventList R E) : List (Option E) :=
  el.tree.enum.map (fun ir => el.processor (el.build ir.2 ir.1))

theorem EventList.iterate_get? {R E : Type} (el : EventList R E) (i : Nat) :
    el.iterate.get? i = (el.tree.get? i).map (fun r => el.processor (el.build r i)) := by
  unfold EventList.iterate
  simp only [List.get?_eq_getElem?, List.getElem?_map, List.getElem?_enum]
  cases h : el.tree[i]? <;> rfl

/-- C4 (amended): `EventList[i]` agrees with position `i` of full iteration
for every `0 ≤ i < n`, and with position `n + i` for every negative `i` with
`|i| < n`; every index with `|i| ≥ n` — including `i = -n`, which Python
sequence convention would accept as the first element — raises `IndexError`. -/
theorem eventlist_getitem_spec {R E : Type} (el : EventList R E) (index : Int) :
    (el.tree.length ≤ index.natAbs → el.getItem index = .error .indexError) ∧
    (index.natAbs < el.tree.length →
      ∃ r, el.tree.get? (if index < 0 then (index + el.tree.length).toNat else index.toNat)
            = some r ∧
          el.getItem index
            = .ok (el.processor (el.build r
                (if index < 0 then (index + el.tree.length).toNat else index.toNat))) ∧
          el.iterate.get? (if index < 0 then (index + el.tree.length).toNat else index.toNat)
            = some (el.processor (el.build r
                (if index < 0 then (index + el.tree.length).toNat else index.toNat)))) := by
  constructor
  · intro h
    unfold EventList.getItem
    rw [if_pos h]
  · intro h
    have hpos : (if index < 0 then (index + el.tree.length).toNat else index.toNat)
        < el.tree.length := by
      by_cases hneg : index < 0
      · rw [if_pos hneg]
        omega
      · rw [if_neg hneg]
        rw [not_lt] at hneg
        omega
    obtain ⟨r, hr⟩ : ∃ r, el.tree.get?
        (if index < 0 then (index + el.tree.length).toNat else index.toNat) = some r := by
      rw [List.get?_eq_get hpos]
      exact ⟨_, rfl⟩
    refine ⟨r, hr, ?_, ?_⟩
    · unfold EventList.getItem
      rw [if_neg (by omega)]
      dsimp only
      rw [hr]
    · rw [EventList.iterate_get?, hr]
      rfl

/-- A one-record event list over trivial records. -/
def elC4 : EventList Nat Nat := ⟨[7], fun r i => r + i, fun e => some e⟩

/-- A two-record event list. -/
def el2C4 : EventList Nat Nat := ⟨[7, 9], fun r i => r + i, fun e => some e⟩

/-- Counterexample for C4 as frozen: on a 1-record source, `EventList[-1]`
(equivalently `EventList[-n]`) raises `IndexError` even though full iteration
has a value at the corresponding position. -/
theorem eventlist_neg_length_counterexample :
    elC4.getItem (-1) = .error .indexError ∧ elC4.iterate = [some 7] :=
  ⟨rfl, rfl⟩

/-- Witness for C4 (amended) on a concrete two-record list: `[-1]` agrees
with the last iteration value, `[-2]` and `[2]` raise `IndexError`. -/
theorem eventlist_getitem_spec_witness :
    el2C4.getItem (-1) = .ok (some 10) ∧
    el2C4.getItem (-2) = .error .indexError ∧
    el2C4.getItem 2 = .error .indexError := by
  refine ⟨?_, (eventlist_getitem_spec el2C4 (-2)).1 (by decide),
    (eventlist_getitem_spec el2C4 2).1 (by decide)⟩
  obtain ⟨r, hr, hget, _⟩ := (eventlist_getitem_spec el2C4 (-1)).2 (by decide)
  have hr9 : (9 : Nat) = r := by
    have h0 : some (9 : Nat) = some r := by
      rw [← hr]
      rfl
    injection h0
  subst hr9
  rw [hget]
  rfl

/-! ### Matching engine (dtpr/utils/genmuon_functions.py, dtpr/utils/functions.py,
dtpr/particles/segment.py, dtpr/particles/ph2tp.py)

Generator muons and segments live in per-event arrays; the bidirectional
matched references are stored as indices into those arrays (Python stores
object references; `x in list` membership always succeeds on the identical
object, which index equality models).  The floating-point comparisons
`dphi < max_dPhi` / `deta < max_dEta` are carried as Boolean parameters tied
to the real-valued conditions by hypotheses in the theorems. -/

structure GenMuon where
  phi : ℝ
  eta : ℝ
  matched_segments : List Nat
  showered : Bool

structure Segment where
  wh : Int
  sc : Int
  st : Int
  phi : ℝ
  eta : ℝ
  nHits_phi : Int
  nHits_z : Int
  matched_genmuons : List Nat
  tp_matches : List Nat

/-- Embeds `append_to_matched_list` (dtpr/utils/functions.py): append only if the
item is not already present. -/
def append_to_matched_list (l : List Nat) (i : Nat) : List Nat :=
  if i ∈ l then l else l ++ [i]

/-- The wrapped azimuthal difference `abs(math.acos(math.cos(x - y)))`. -/
noncomputable def angDiff (x y : ℝ) : ℝ := |Real.arccos (Real.cos (x - y))|

/-- The matching criterion of `match_genmuon_offline_segment`: dPhi and dEta
under their thresholds, at least 4 phi-projection hits, and at least 4
z-projection hits unless the segment is in station 4 (MB4). -/
def genSegMatchCond (gm : GenMuon) (seg : Segment) (max_dPhi max_dEta : ℝ) : Prop :=
  angDiff gm.phi seg.phi < max_dPhi ∧ |gm.eta - seg.eta| < max_dEta ∧
    4 ≤ seg.nHits_phi ∧ (4 ≤ seg.nHits_z ∨ seg.st = 4)

/-- The Boolean evaluation of the matching criterion, with the two
floating-point comparisons supplied as `dphiOk` / `detaOk`. -/
def genSegMatchB (seg : Segment) (dphiOk detaOk : Bool) : Bool :=
  dphiOk && detaOk && decide (4 ≤ seg.nHits_phi)
    && (decide (4 ≤ seg.nHits_z) || decide (seg.st = 4))

/-- Embeds `match_genmuon_offline_segment`: on a match, append bidirectional
de-duplicated references (`gm.matched_segments` gains the segment,
`seg.matched_genmuons` gains the muon). -/
def match_genmuon_offline_segment (gm : GenMuon) (seg : Segment) (gid sid : Nat)
    (dphiOk detaOk : Bool) : GenMuon × Segment :=
  if genSegMatchB seg dphiOk detaOk then
    ({ gm with matched_segments := append_to_matched_list gm.matched_segments sid },
     { seg with matched_genmuons := append_to_matched_list seg.matched_genmuons gid })
  else
    (gm, seg)

/-- One event's matching state: the generator-muon and segment arrays. -/
structure MatchState where
  gms : List GenMuon
  segs : List Segment

/-- One inner-loop iteration of `analyze_genmuon_matches`: match muon `g`
against segment `s` and write both back. -/
def matchStepAt (dphiOk detaOk : GenMuon → Segment → Bool) (g s : Nat)
    (st : MatchState) : MatchState :=
  match st.gms.get? g, st.segs.get? s with
  | some gm, some seg =>
    let r := match_genmuon_offline_segment gm seg g s (dphiOk gm seg) (detaOk gm seg)
    { gms := st.gms.set g r.1, segs := st.segs.set s r.2 }
  | _, _ => st

/-- The muon-segment double loop of `analyze_genmuon_matches`. -/
def analyze_genmuon_matches (dphiOk detaOk : GenMuon → Segment → Bool)
    (st : MatchState) : MatchState :=
  (List.range st.gms.length).foldl
    (fun acc g =>
      (List.range acc.segs.length).foldl
        (fun acc2 s => matchStepAt dphiOk detaOk g s acc2) acc)
    st

/-- Bidirectional bookkeeping: a segment is among a muon's matched segments
iff the muon is among the segment's matched muons. -/
def SymOK (st : MatchState) : Prop :=
  ∀ g s gm seg, st.gms.get? g = some gm → st.segs.get? s = some seg →
    (s ∈ gm.matched_segments ↔ g ∈ seg.matched_genmuons)

/-- No duplicate entries in any matched list. -/
def NodupOK (st : MatchState) : Prop :=
  (∀ gm ∈ st.gms, gm.matched_segments.Nodup) ∧
    (∀ seg ∈ st.segs, seg.matched_genmuons.Nodup)

theorem mem_append_to_matched_list {l : List Nat} {i x : Nat} :
    x ∈ append_to_matched_list l i ↔ x ∈ l ∨ x = i := by
  unfold append_to_matched_list
  by_cases h : i ∈ l
  · rw [if_pos h]
    constructor
    · exact Or.inl
    · rintro (hx | rfl)
      · exact hx
      · exact h
  · rw [if_neg h]
    simp

theorem nodup_append_to_matched_list {l : List Nat} {i : Nat} (h : l.Nodup) :
    (append_to_matched_list l i).Nodup := by
  unfold append_to_matched_list
  by_cases hm : i ∈ l
  · rw [if_pos hm]; exact h
  · rw [if_neg hm]
    refine List.Nodup.append h (List.nodup_singleton i) ?_
    intro a ha hb
    rw [List.mem_singleton] at hb
    subst hb
    exact hm ha

theorem genSegMatchB_iff {gm : GenMuon} {seg : Segment} {max_dPhi max_dEta : ℝ}
    {dphiOk detaOk : Bool}
    (h1 : dphiOk = true ↔ angDiff gm.phi seg.phi < max_dPhi)
    (h2 : detaOk = true ↔ |gm.eta - seg.eta| < max_dEta) :
    (genSegMatchB seg dphiOk detaOk = true
      ↔ genSegMatchCond gm seg max_dPhi max_dEta) := by
  unfold genSegMatchB genSegMatchCond
  simp only [Bool.and_eq_true, Bool.or_eq_true, decide_eq_true_eq, h1, h2, and_assoc]

/-- Test particles for the concrete C5 scenario. -/
noncomputable def gmC5 : GenMuon := ⟨0.05, 0.10, [], false⟩

noncomputable def segC5 : Segment := ⟨0, 0, 2, 0.06, 0.12, 5, 5, [], []⟩

/-- Same candidate segment with `nHits_z = 2` (station 2 is not waived). -/
noncomputable def segC5x : Segment := ⟨0, 0, 2, 0.06, 0.12, 5, 2, [], []⟩

theorem angDiff_gmC5_segC5 : angDiff gmC5.phi segC5.phi < 0.1 := by
  show |Real.arccos (Real.cos ((0.05 : ℝ) - 0.06))| < 0.1
  have e1 : (0.05 : ℝ) - 0.06 = -(0.01 : ℝ) := by norm_num
  rw [e1, Real.cos_neg,
    Real.arccos_cos (by norm_num) (le_trans (by norm_num) Real.pi_gt_three.le),
    abs_of_nonneg (by norm_num : (0 : ℝ) ≤ 0.01)]
  norm_num

theorem etaDiff_gmC5_segC5 : |gmC5.eta - segC5.eta| < 0.3 := by
  show |(0.10 : ℝ) - 0.12| < 0.3
  rw [abs_lt]
  constructor <;> norm_num

/-- C5: the generator-muon/segment matcher records the match (in both
directions) iff the wrapped dPhi and the dEta are under their thresholds, the
phi-projection hit count is at least 4, and the z-projection hit count is at
least 4 or the segment sits in end station MB4; the concrete scenario
(`phi=0.05/0.06`, `eta=0.10/0.12`, `nHits=5/5`, `st=2`) matches, and the same
candidate with `nHits_z=2` at `st=2` does not. -/
theorem genmuon_segment_match_spec :
    (∀ (gm : GenMuon) (seg : Segment) (gid sid : Nat) (max_dPhi max_dEta : ℝ)
        (dphiOk detaOk : Bool),
      (dphiOk = true ↔ angDiff gm.phi seg.phi < max_dPhi) →
      (detaOk = true ↔ |gm.eta - seg.eta| < max_dEta) →
      sid ∉ gm.matched_segments →
      ((sid ∈ (match_genmuon_offline_segment gm seg gid sid dphiOk detaOk).1.matched_segments
          ↔ genSegMatchCond gm seg max_dPhi max_dEta) ∧
        (gid ∉ seg.matched_genmuons →
          (gid ∈ (match_genmuon_offline_segment gm seg gid sid dphiOk
              detaOk).2.matched_genmuons
            ↔ genSegMatchCond gm seg max_dPhi max_dEta)))) ∧
    genSegMatchCond gmC5 segC5 0.1 0.3 ∧
    ¬ genSegMatchCond gmC5 segC5x 0.1 0.3 := by
  refine ⟨?_, ?_, ?_⟩
  · intro gm seg gid sid mdp mde dphiOk detaOk h1 h2 hnot
    have hb := genSegMatchB_iff h1 h2
    unfold match_genmuon_offline_segment
    by_cases hc : genSegMatchB seg dphiOk detaOk = true
    · rw [if_pos hc]
      refine ⟨⟨fun _ => hb.mp hc, fun _ => ?_⟩, fun _ => ⟨fun _ => hb.mp hc, fun _ => ?_⟩⟩
      · exact mem_append_to_matched_list.mpr (Or.inr rfl)
      · exact mem_append_to_matched_list.mpr (Or.inr rfl)
    · rw [if_neg hc]
      have hnc : ¬ genSegMatchCond gm seg mdp mde := fun hcond => hc (hb.mpr hcond)
      exact ⟨⟨fun hmem => absurd hmem hnot, fun hcond => absurd hcond hnc⟩,
        fun hgnot => ⟨fun hmem => absurd hmem hgnot, fun hcond => absurd hcond hnc⟩⟩
  · exact ⟨angDiff_gmC5_segC5, etaDiff_gmC5_segC5, by norm_num [segC5],
      Or.inl (by norm_num [segC5])⟩
  · rintro ⟨-, -, -, h4⟩
    rcases h4 with h4 | h4 <;> norm_num [segC5x] at h4

/-- Witness for C5: the matcher records the concrete matching pair and
rejects the low-`nHits_z` variant. -/
theorem genmuon_segment_match_spec_witness :
    0 ∈ (match_genmuon_offline_segment gmC5 segC5 0 0 true true).1.matched_segments ∧
    0 ∉ (match_genmuon_offline_segment gmC5 segC5x 0 0 true true).1.matched_segments := by
  have h := genmuon_segment_match_spec
  constructor
  · exact ((h.1 gmC5 segC5 0 0 0.1 0.3 true true
      ⟨fun _ => h.2.1.1, fun _ => rfl⟩ ⟨fun _ => h.2.1.2.1, fun _ => rfl⟩
      (by simp [gmC5])).1).mpr h.2.1
  · intro hmem
    exact h.2.2 (((h.1 gmC5 segC5x 0 0 0.1 0.3 true true
      ⟨fun _ => h.2.1.1, fun _ => rfl⟩ ⟨fun _ => h.2.1.2.1, fun _ => rfl⟩
      (by simp [gmC5])).1).mp hmem)

theorem match_result_mem_segs {gm : GenMuon} {seg : Segment} {g s : Nat}
    {d1 d2 : Bool} (x : Nat) :
    x ∈ (match_genmuon_offline_segment gm seg g s d1 d2).1.matched_segments ↔
      x ∈ gm.matched_segments ∨ (genSegMatchB seg d1 d2 = true ∧ x = s) := by
  unfold match_genmuon_offline_segment
  by_cases hc : genSegMatchB seg d1 d2 = true
  · rw [if_pos hc]
    simp [mem_append_to_matched_list, hc]
  · rw [if_neg hc]
    simp [hc]

theorem match_result_mem_gms {gm : GenMuon} {seg : Segment} {g s : Nat}
    {d1 d2 : Bool} (x : Nat) :
    x ∈ (match_genmuon_offline_segment gm seg g s d1 d2).2.matched_genmuons ↔
      x ∈ seg.matched_genmuons ∨ (genSegMatchB seg d1 d2 = true ∧ x = g) := by
  unfold match_genmuon_offline_segment
  by_cases hc : genSegMatchB seg d1 d2 = true
  · rw [if_pos hc]
    simp [mem_append_to_matched_list, hc]
  · rw [if_neg hc]
    simp [hc]

theorem match_result_nodup_segs {gm : GenMuon} {seg : Segment} {g s : Nat}
    {d1 d2 : Bool} (h : gm.matched_segments.Nodup) :
    (match_genmuon_offline_segment gm seg g s d1 d2).1.matched_segments.Nodup := by
  unfold match_genmuon_offline_segment
  by_cases hc : genSegMatchB seg d1 d2 = true
  · rw [if_pos hc]
    exact nodup_append_to_matched_list h
  · rw [if_neg hc]
    exact h

theorem match_result_nodup_gms {gm : GenMuon} {seg : Segment} {g s : Nat}
    {d1 d2 : Bool} (h : seg.matched_genmuons.Nodup) :
    (match_genmuon_offline_segment gm seg g s d1 d2).2.matched_genmuons.Nodup := by
  unfold match_genmuon_offline_segment
  by_cases hc : genSegMatchB seg d1 d2 = true
  · rw [if_pos hc]
    exact nodup_append_to_matched_list h
  · rw [if_neg hc]
    exact h

theorem matchStepAt_preserves (dphiOk detaOk : GenMuon → Segment → Bool) (g s : Nat)
    (st : MatchState) (h : SymOK st ∧ NodupOK st) :
    SymOK (matchStepAt dphiOk detaOk g s st) ∧
      NodupOK (matchStepAt dphiOk detaOk g s st) := by
  obtain ⟨hsym, hnd⟩ := h
  unfold matchStepAt
  cases hg : st.gms.get? g with
  | none => exact ⟨hsym, hnd⟩
  | some gm =>
    cases hs : st.segs.get? s with
    | none => exact ⟨hsym, hnd⟩
    | some seg =>
      dsimp only
      have hglen : g < st.gms.length := by
        by_contra hcon
        rw [not_lt] at hcon
        rw [List.get?_eq_none.mpr hcon] at hg
        cases hg
      have hslen : s < st.segs.length := by
        by_contra hcon
        rw [not_lt] at hcon
        rw [List.get?_eq_none.mpr hcon] at hs
        cases hs
      constructor
      · intro g' s' gm₂ seg₂ hg₂ hs₂
        rw [List.get?_eq_getElem?, List.getElem?_set] at hg₂ hs₂
        by_cases hgg : g = g' <;> by_cases hss : s = s'
        · subst hgg; subst hss
          rw [if_pos rfl, if_pos hglen] at hg₂
          rw [if_pos rfl, if_pos hslen] at hs₂
          injection hg₂ with hg₂
          injection hs₂ with hs₂
          subst hg₂; subst hs₂
          rw [match_result_mem_segs, match_result_mem_gms]
          have hbase := hsym g s gm seg hg hs
          constructor
          · rintro (hmem | ⟨hc, -⟩)
            · exact Or.inl (hbase.mp hmem)
            · exact Or.inr ⟨hc, rfl⟩
          · rintro (hmem | ⟨hc, -⟩)
            · exact Or.inl (hbase.mpr hmem)
            · exact Or.inr ⟨hc, rfl⟩
        · subst hgg
          rw [if_pos rfl, if_pos hglen] at hg₂
          rw [if_neg hss] at hs₂
          injection hg₂ with hg₂
          subst hg₂
          rw [match_result_mem_segs]
          have hbase := hsym g s' gm seg₂ hg (by rw [List.get?_eq_getElem?]; exact hs₂)
          constructor
          · rintro (hmem | ⟨-, rfl⟩)
            · exact hbase.mp hmem
            · exact absurd rfl hss
          · intro hmem
            exact Or.inl (hbase.mpr hmem)
        · subst hss
          rw [if_neg hgg] at hg₂
          rw [if_pos rfl, if_pos hslen] at hs₂
          injection hs₂ with hs₂
          subst hs₂
          rw [match_result_mem_gms]
          have hbase := hsym g' s gm₂ seg (by rw [List.get?_eq_getElem?]; exact hg₂) hs
          constructor
          · intro hmem
            exact Or.inl (hbase.mp hmem)
          · rintro (hmem | ⟨-, rfl⟩)
            · exact hbase.mpr hmem
            · exact absurd rfl hgg
        · rw [if_neg hgg] at hg₂
          rw [if_neg hss] at hs₂
          exact hsym g' s' gm₂ seg₂ (by rw [List.get?_eq_getElem?]; exact hg₂)
            (by rw [List.get?_eq_getElem?]; exact hs₂)
      · constructor
        · intro gm₂ hmem
          rcases List.mem_or_eq_of_mem_set hmem with hin | heq
          · exact hnd.1 gm₂ hin
          · subst heq
            exact match_result_nodup_segs (hnd.1 gm (List.get?_mem hg))
        · intro seg₂ hmem
          rcases List.mem_or_eq_of_mem_set hmem with hin | heq
          · exact hnd.2 seg₂ hin
          · subst heq
            exact match_result_nodup_gms (hnd.2 seg (List.get?_mem hs))

theorem foldl_preserve {α β : Type _} (P : α → Prop) (f : α → β → α)
    (hf : ∀ a b, P a → P (f a b)) : ∀ (l : List β) (a : α), P a → P (l.foldl f a) := by
  intro l
  induction l with
  | nil => intro a ha; exact ha
  | cons b t ih => intro a ha; exact ih _ (hf a b ha)

theorem analyze_genmuon_matches_preserves (dphiOk detaOk : GenMuon → Segment → Bool)
    (st : MatchState) (h : SymOK st ∧ NodupOK st) :
    SymOK (analyze_genmuon_matches dphiOk detaOk st) ∧
      NodupOK (analyze_genmuon_matches dphiOk detaOk st) := by
  unfold analyze_genmuon_matches
  refine foldl_preserve (fun st => SymOK st ∧ NodupOK st) _ ?_ _ st h
  intro acc g hacc
  refine foldl_preserve (fun st => SymOK st ∧ NodupOK st) _ ?_ _ acc hacc
  intro acc2 s hacc2
  exact matchStepAt_preserves dphiOk detaOk g s acc2 hacc2

/-- C6: the matched references are bidirectional — a segment index appears in
a muon's `matched_segments` iff the muon's index appears in that segment's
`matched_genmuons` — and running the matching pass any number of times never
introduces a duplicate entry in either list.  This holds for every
floating-point decision function, hence for the dPhi/dEta thresholds of
`analyze_genmuon_matches`. -/
theorem genmuon_matching_bidirectional_nodup (dphiOk detaOk : GenMuon → Segment → Bool)
    (st : MatchState) (hsym : SymOK st) (hnd : NodupOK st) (k : Nat) :
    SymOK ((analyze_genmuon_matches dphiOk detaOk)^[k] st) ∧
      NodupOK ((analyze_genmuon_matches dphiOk detaOk)^[k] st) := by
  induction k with
  | zero => exact ⟨hsym, hnd⟩
  | succ n ih =>
    rw [Function.iterate_succ_apply']
    exact analyze_genmuon_matches_preserves dphiOk detaOk _ ih

/-- A fresh one-muon, one-segment event state with empty matched lists. -/
noncomputable def st0C6 : MatchState :=
  ⟨[⟨0, 0, [], false⟩], [⟨1, 1, 1, 0, 0, 5, 5, [], []⟩]⟩

/-- Witness for C6: after two full matching passes over a concrete fresh
state (with an always-true decision function), the bookkeeping is symmetric
and duplicate-free. -/
theorem genmuon_matching_bidirectional_nodup_witness :
    SymOK ((analyze_genmuon_matches (fun _ _ => true) (fun _ _ => true))^[2] st0C6) ∧
      NodupOK ((analyze_genmuon_matches (fun _ _ => true) (fun _ _ => true))^[2] st0C6) := by
  refine genmuon_matching_bidirectional_nodup _ _ st0C6 ?_ ?_ 2
  · intro g s gm seg hg hs
    cases g with
    | zero =>
      cases s with
      | zero =>
        injection hg with hg
        injection hs with hs
        subst hg; subst hs
        simp
      | succ n => simp [st0C6, List.get?] at hs
    | succ n => simp [st0C6, List.get?] at hg
  · constructor
    · intro gm hmem
      simp only [st0C6, List.mem_singleton] at hmem
      subst hmem
      exact List.nodup_nil
    · intro seg hmem
      simp only [st0C6, List.mem_singleton] at hmem
      subst hmem
      exact List.nodup_nil

/-! ### Shower detection, duplicate-location heuristic
(`analyze_genmuon_showers`, method 1, with `get_unique_locs`) -/

/-- A segment's chamber location tuple `(wh, sc, st)`. -/
def Segment.loc (s : Segment) : Int × Int × Int := (s.wh, s.sc, s.st)

/-- Embeds `get_unique_locs`: the set of distinct `(wh, sc, st)` tuples of a
particle list. -/
def get_unique_locs (segs : List Segment) : Finset (Int × Int × Int) :=
  (segs.map Segment.loc).toFinset

/-- Method 1 of `analyze_genmuon_showers` for one muon: flag it showered when
its matched segments hold fewer distinct locations than entries. -/
def analyze_genmuon_showers (gm : GenMuon) (matched : List Segment) : GenMuon :=
  if matched.length ≠ (get_unique_locs matched).card then
    { gm with showered := true }
  else
    gm

theorem list_toFinset_card_eq_length_iff {α : Type} [DecidableEq α] (l : List α) :
    l.toFinset.card = l.length ↔ l.Nodup := by
  exact Multiset.toFinset_card_eq_card_iff_nodup

/-- C7: under the duplicate-location heuristic, a not-yet-flagged muon is
flagged showered iff two of its matched segments (at distinct positions)
share the same `(wh, sc, st)`; the concrete triple with a repeated
`(1, 3, 2)` is flagged and the all-distinct triple is not. -/
theorem genmuon_shower_duplicate_loc_spec :
    (∀ (gm : GenMuon) (matched : List Segment), gm.showered = false →
      ((analyze_genmuon_showers gm matched).showered = true ↔
        ∃ i j : Fin matched.length, i ≠ j ∧
          (matched.get i).loc = (matched.get j).loc)) ∧
    (analyze_genmuon_showers ⟨0, 0, [], false⟩
      [⟨1, 3, 2, 0, 0, 5, 5, [], []⟩, ⟨1, 3, 2, 0, 0, 5, 5, [], []⟩,
        ⟨1, 3, 3, 0, 0, 5, 5, [], []⟩]).showered = true ∧
    (analyze_genmuon_showers ⟨0, 0, [], false⟩
      [⟨1, 3, 2, 0, 0, 5, 5, [], []⟩, ⟨1, 3, 3, 0, 0, 5, 5, [], []⟩,
        ⟨1, 3, 4, 0, 0, 5, 5, [], []⟩]).showered = false := by
  refine ⟨?_, ?_, ?_⟩
  · intro gm matched hfalse
    unfold analyze_genmuon_showers
    by_cases hne : matched.length ≠ (get_unique_locs matched).card
    · rw [if_pos hne]
      simp only [show ({ gm with showered := true } : GenMuon).showered = true from rfl,
        true_iff]
      have hnotnodup : ¬ (matched.map Segment.loc).Nodup := by
        intro hnodup
        apply hne
        have := (list_toFinset_card_eq_length_iff (matched.map Segment.loc)).mpr hnodup
        unfold get_unique_locs
        rw [this, List.length_map]
      rw [List.nodup_iff_injective_get] at hnotnodup
      rw [Function.not_injective_iff] at hnotnodup
      obtain ⟨i, j, hij, hne'⟩ := hnotnodup
      have hlen : (matched.map Segment.loc).length = matched.length := List.length_map _ _
      refine ⟨⟨i.1, by omega⟩, ⟨j.1, by omega⟩, ?_, ?_⟩
      · intro hcon
        apply hne'
        apply Fin.ext
        have hv := congrArg Fin.val hcon
        exact hv
      · have hi : (matched.map Segment.loc).get i
            = (matched.get ⟨i.1, by omega⟩).loc := by
          rw [List.get_map]
        have hj : (matched.map Segment.loc).get j
            = (matched.get ⟨j.1, by omega⟩).loc := by
          rw [List.get_map]
        rw [← hi, ← hj]
        exact hij
    · rw [if_neg hne]
      rw [hfalse]
      rw [not_ne_iff] at hne
      simp only [Bool.false_eq_true, false_iff]
      intro hcon
      obtain ⟨i, j, hij, hloc⟩ := hcon
      have hnodup : (matched.map Segment.loc).Nodup := by
        rw [← list_toFinset_card_eq_length_iff]
        unfold get_unique_locs at hne
        rw [List.length_map, ← hne]
      rw [List.nodup_iff_injective_get] at hnodup
      apply hij
      have hlen : (matched.map Segment.loc).length = matched.length := List.length_map _ _
      have hi : (matched.map Segment.loc).get ⟨i.1, by omega⟩ = (matched.get i).loc := by
        rw [List.get_map]
      have hj : (matched.map Segment.loc).get ⟨j.1, by omega⟩ = (matched.get j).loc := by
        rw [List.get_map]
      have heq := @hnodup ⟨i.1, by omega⟩ ⟨j.1, by omega⟩ (by rw [hi, hj, hloc])
      apply Fin.ext
      have hv := congrArg Fin.val heq
      exact hv
  · rfl
  · rfl

/-- Witness for C7 exercising the universally quantified part on the flagged
concrete triple. -/
theorem genmuon_shower_duplicate_loc_spec_witness :
    (analyze_genmuon_showers ⟨0, 0, [], false⟩
      [⟨1, 3, 2, 0, 0, 5, 5, [], []⟩, ⟨1, 3, 2, 0, 0, 5, 5, [], []⟩,
        ⟨1, 3, 3, 0, 0, 5, 5, [], []⟩]).showered = true := by
  have h := genmuon_shower_duplicate_loc_spec
  refine (h.1 ⟨0, 0, [], false⟩
    [⟨1, 3, 2, 0, 0, 5, 5, [], []⟩, ⟨1, 3, 2, 0, 0, 5, 5, [], []⟩,
      ⟨1, 3, 3, 0, 0, 5, 5, [], []⟩] rfl).mpr ?_
  exact ⟨⟨0, by norm_num⟩, ⟨1, by norm_num⟩, by decide, rfl⟩

/-! ### Segment to trigger-primitive matching
(`Segment.match_offline_to_AM`, dtpr/particles/segment.py, and the `Ph2TP`
construction, dtpr/particles/ph2tp.py) -/

structure Ph2TP where
  wh : Int
  sc : Int
  st : Int
  phi : ℝ
  BX : Int

/-- Embeds `self.phires_conv = 65536.0 / 0.5`. -/
noncomputable def phires_conv : ℝ := 65536.0 / 0.5

/-- Embeds `Ph2TP._init_from_ev` which recenters the bunch crossing:
`BX = raw - 20`. -/
def mkPh2TP (wh sc st : Int) (phi : ℝ) (rawBX : Int) : Ph2TP :=
  ⟨wh, sc, st, phi, rawBX - 20⟩

/-- The segment sector-alias normalisation (13 → 4, 14 → 10). -/
def normalizeSegSector (sc : Int) : Int :=
  if sc = 13 then 4 else if sc = 14 then 10 else sc

/-- The trigger primitive's global azimuth:
`tp.phi / tp.phires_conv + pi / 6 * (tp.sc - 1)`. -/
noncomputable def trigGlbPhi (tp : Ph2TP) : ℝ :=
  tp.phi / phires_conv + Real.pi / 6 * ((tp.sc : ℝ) - 1)

/-- The matching criterion of `Segment.match_offline_to_AM`: same chamber
after sector normalisation, wrapped dPhi under threshold, and trigger
primitive in the nominal bunch crossing. -/
def segTPMatchCond (seg : Segment) (tp : Ph2TP) (max_dPhi : ℝ) : Prop :=
  tp.wh = seg.wh ∧ tp.sc = normalizeSegSector seg.sc ∧ tp.st = seg.st ∧
    angDiff seg.phi (trigGlbPhi tp) < max_dPhi ∧ tp.BX = 0

/-- Embeds `Segment.match_offline_to_AM`: the same-chamber check, then
`matches = dphi < max_dPhi and tp.BX == 0`, then `_add_match` (de-duplicated
append).  The floating-point comparison `dphi < max_dPhi` is the `dphiOk`
parameter. -/
def match_offline_to_AM (seg : Segment) (tp : Ph2TP) (tpid : Nat) (dphiOk : Bool) :
    Segment :=
  let seg_sc := normalizeSegSector seg.sc
  if tp.wh = seg.wh ∧ tp.sc = seg_sc ∧ tp.st = seg.st then
    if dphiOk && decide (tp.BX = 0) then
      { seg with tp_matches := append_to_matched_list seg.tp_matches tpid }
    else
      seg
  else
    seg

/-- C8: the segment/trigger-primitive matcher records a match iff wheel,
normalised sector (13 → 4, 14 → 10) and station coincide, the wrapped
difference between the segment azimuth and the trigger primitive's global
azimuth (`tp.phi / conversion + pi/6 * (sc - 1)`) is under the threshold, and
the trigger primitive's bunch crossing is nominal zero — which, given the
fixed recentering offset subtracted at construction, means a raw bunch
crossing of 20. -/
theorem segment_tp_match_spec :
    (∀ (seg : Segment) (tp : Ph2TP) (tpid : Nat) (max_dPhi : ℝ) (dphiOk : Bool),
      (dphiOk = true ↔ angDiff seg.phi (trigGlbPhi tp) < max_dPhi) →
      tpid ∉ seg.tp_matches →
      (tpid ∈ (match_offline_to_AM seg tp tpid dphiOk).tp_matches ↔
        segTPMatchCond seg tp max_dPhi)) ∧
    (∀ (wh sc st : Int) (phi : ℝ) (rawBX : Int),
      ((mkPh2TP wh sc st phi rawBX).BX = 0 ↔ rawBX = 20)) := by
  constructor
  · intro seg tp tpid mdp dphiOk h1 hnot
    unfold match_offline_to_AM
    by_cases hloc : tp.wh = seg.wh ∧ tp.sc = normalizeSegSector seg.sc ∧ tp.st = seg.st
    · rw [if_pos hloc]
      by_cases hin : (dphiOk && decide (tp.BX = 0)) = true
      · rw [if_pos hin]
        rw [Bool.and_eq_true, decide_eq_true_eq] at hin
        constructor
        · intro _
          exact ⟨hloc.1, hloc.2.1, hloc.2.2, h1.mp hin.1, hin.2⟩
        · intro _
          exact mem_append_to_matched_list.mpr (Or.inr rfl)
      · rw [if_neg hin]
        constructor
        · intro hmem
          exact absurd hmem hnot
        · rintro ⟨-, -, -, hdphi, hbx⟩
          have hb : (dphiOk && decide (tp.BX = 0)) = true := by
            rw [Bool.and_eq_true, decide_eq_true_eq]
            exact ⟨h1.mpr hdphi, hbx⟩
          exact absurd hb hin
    · rw [if_neg hloc]
      constructor
      · intro hmem
        exact absurd hmem hnot
      · rintro ⟨hwh, hsc, hst, -, -⟩
        exact absurd ⟨hwh, hsc, hst⟩ hloc
  · intro wh sc st phi rawBX
    constructor
    · intro h
      have h20 : rawBX - 20 = 0 := h
      omega
    · intro h
      subst h
      show (20 : Int) - 20 = 0
      decide

/-- A segment with the irregular sector alias 13 at azimuth `pi/2`. -/
noncomputable def segC8 : Segment := ⟨1, 13, 2, Real.pi / 2, 0, 5, 5, [], []⟩

/-- A trigger primitive at sector 4 (the normalisation of 13), raw phi code
0, raw bunch crossing 20, so its global azimuth is `pi/2` and its recentered
BX is 0. -/
noncomputable def tpC8 : Ph2TP := mkPh2TP 1 4 2 0 20

theorem angDiff_segC8_tpC8 : angDiff segC8.phi (trigGlbPhi tpC8) < 0.1 := by
  have htrig : trigGlbPhi tpC8 = Real.pi / 2 := by
    unfold trigGlbPhi tpC8 mkPh2TP phires_conv
    push_cast
    ring_nf
  unfold angDiff
  rw [htrig]
  show |Real.arccos (Real.cos (Real.pi / 2 - Real.pi / 2))| < 0.1
  rw [sub_self, Real.cos_zero, Real.arccos_one, abs_zero]
  norm_num

/-- Witness for C8: the concrete aliased-sector pair is recorded as a match,
and the BX recentering fact at raw BX 20. -/
theorem segment_tp_match_spec_witness :
    0 ∈ (match_offline_to_AM segC8 tpC8 0 true).tp_matches ∧
      ((mkPh2TP 1 4 2 0 21).BX = 0 ↔ (21 : Int) = 20) := by
  have h := segment_tp_match_spec
  constructor
  · refine (h.1 segC8 tpC8 0 0.1 true ⟨fun _ => angDiff_segC8_tpC8, fun _ => rfl⟩
      (by simp [segC8])).mpr ?_
    refine ⟨rfl, by norm_num [tpC8, mkPh2TP, segC8, normalizeSegSector], rfl,
      angDiff_segC8_tpC8, by norm_num [tpC8, mkPh2TP]⟩
  · exact h.2 1 4 2 0 21

end DTPR
